import Mathlib

/-!
Verification of `footnote_title_replacer.py` (chatgpt-deep-html-to-markdown).

The script performs two text passes over a Markdown document given as one
string, plus URL-title resolution with error bookkeeping:

  Step 1 (Marker Separator):
    `content, comma_count = re.subn(r'(\[\^.+?\])(\[\^)', r'\1<sup>,</sup>\2', content)`

  Step 2 (Footnote Rewriter):
    `content, _ = re.subn(r'\[\^(.+?)\]:\s+(https?://\S+)', replace_footnote, content)`
    where `replace_footnote` builds
    `f"[^{label}]: [{title}]({url}) retrieved on {date_str}"` and `title`
    comes from `get_title_from_url`.

  `get_title_from_url(url, original_footnote)` fetches the URL, branches on
  the declared content type (PDF / HTML / other), applies a bot-protection
  heuristic to extracted HTML titles, and on any exception logs an entry,
  increments the error counter and returns a placeholder string.

Documents are embedded as `List Char`.  The two `re.subn` calls are embedded
as recursive scans that implement exactly the Python `re` semantics of these
two concrete patterns: leftmost, non-overlapping matching, lazy `.+?` (dot
excludes newline), greedy `\s+` and `\S+`, with scanning resuming at the end
of each match.  The fuel argument of each scan is instantiated with the
length of the input, which a length argument shows to be sufficient.
-/

/-- Python `\s` / `str.strip` whitespace class (ASCII part): space, tab,
newline, carriage return, vertical tab, form feed. -/
def isPySpace (c : Char) : Bool :=
  c == ' ' || c == '\t' || c == '\n' || c == '\r' || c == '\x0B' || c == '\x0C'

/-- Python `str.strip()`: drop leading and trailing whitespace. -/
def pyStrip (s : List Char) : List Char :=
  ((s.dropWhile isPySpace).reverse.dropWhile isPySpace).reverse

/-- Python `str.lower()` (ASCII case folding, which covers every string the
script compares). -/
def lowerL (s : List Char) : List Char := s.map Char.toLower

/-- Python `pat in s` substring test. -/
def isSubstr (pat : List Char) : List Char → Bool
  | [] => pat.isEmpty
  | c :: t => pat.isPrefixOf (c :: t) || isSubstr pat t

/-! ### Step 1: the Marker Separator, `re.subn(r'(\[\^.+?\])(\[\^)', r'\1<sup>,</sup>\2', content)` -/

/-- The inserted separator text of the `\1<sup>,</sup>\2` template. -/
def sepStr : List Char := "<sup>,</sup>".data

/-- Recognise the terminator `][^` of the separator pattern at the head of
the list; return the text after it. -/
def headSep : List Char → Option (List Char)
  | ']' :: '[' :: '^' :: r => some r
  | _ => none

/-- Lazy `.+?\]\[\^` after an initial `[^` has been consumed: find the
shortest split `s = dots ++ ']' :: '[' :: '^' :: r` with `dots` nonempty and
newline-free (a dot cannot match a newline), returning `(dots, r)`. -/
def lazyDotTill : List Char → Option (List Char × List Char)
  | [] => none
  | c :: rest =>
    if c = '\n' then none
    else
      match headSep rest with
      | some r => some ([c], r)
      | none => (lazyDotTill rest).map fun x => (c :: x.1, x.2)

/-- Attempt to match `(\[\^.+?\])(\[\^)` at the head of the list.  On success
return `(group1, r)` where `group1` is `\[\^.+?\]` and `r` is the text after
the whole match (i.e. after the consumed `[^` of group 2). -/
def trySep : List Char → Option (List Char × List Char)
  | '[' :: '^' :: rest =>
    (lazyDotTill rest).map fun x => ('[' :: '^' :: (x.1 ++ [']']), x.2)
  | _ => none

/-- One `re.subn` scan of the separator pattern: leftmost, non-overlapping;
after a match the replacement `\1<sup>,</sup>\2` is emitted and scanning
resumes after the match.  Returns the rewritten text and the number of
substitutions.  Fuel only needs to dominate the input length. -/
def sepScanF : Nat → List Char → List Char × Nat
  | 0, s => (s, 0)
  | _ + 1, [] => ([], 0)
  | fuel + 1, c :: rest =>
    match trySep (c :: rest) with
    | some (g1, r) =>
      let p := sepScanF fuel r
      (g1 ++ sepStr ++ '[' :: '^' :: p.1, p.2 + 1)
    | none =>
      let p := sepScanF fuel rest
      (c :: p.1, p.2)

/-- Step 1 of `process_markdown`: the full separator pass, returning the new
text and the value assigned to `comma_count`. -/
def separateMarkers (s : List Char) : List Char × Nat :=
  sepScanF s.length s

/-! ### Step 2: the Footnote Rewriter, `re.subn(r'\[\^(.+?)\]:\s+(https?://\S+)', replace_footnote, content)` -/

/-- The `https?://` part of the URL pattern: greedy optional `s` followed by
the mandatory `://`.  Returns the matched protocol and the remaining text. -/
def protoSplit : List Char → Option (List Char × List Char)
  | 'h' :: 't' :: 't' :: 'p' :: 's' :: ':' :: '/' :: '/' :: r => some ("https://".data, r)
  | 'h' :: 't' :: 't' :: 'p' :: ':' :: '/' :: '/' :: r => some ("http://".data, r)
  | _ => none

/-- Match `\s+(https?://\S+)` at the head of the list: a nonempty (greedy)
whitespace run, then the URL group `https?://\S+` with a nonempty greedy
run of non-whitespace.  Returns `(whitespace, group2, rest)`. -/
def matchTailB (s : List Char) : Option (List Char × List Char × List Char) :=
  let ws := s.takeWhile isPySpace
  let s1 := s.dropWhile isPySpace
  if ws.isEmpty then none
  else
    match protoSplit s1 with
    | some (proto, body) =>
      let run := body.takeWhile fun c => !(isPySpace c)
      if run.isEmpty then none
      else some (ws, proto ++ run, body.dropWhile fun c => !(isPySpace c))
    | none => none

/-- Recognise `]:` at the head of the list and match the tail pattern
`\s+(https?://\S+)` after it. -/
def headMatch : List Char → Option (List Char × List Char × List Char)
  | ']' :: ':' :: rest2 => matchTailB rest2
  | _ => none

/-- Lazy `(.+?)\]:\s+(https?://\S+)` after an initial `[^` has been
consumed: find the shortest nonempty newline-free label followed by `]:`
such that the rest of the pattern also matches (the lazy group backtracks
through `]:` occurrences whose tail fails).  Returns
`(label, whitespace, group2, rest)`. -/
def findLabelSplit : List Char → Option (List Char × List Char × List Char × List Char)
  | [] => none
  | c :: rest =>
    if c = '\n' then none
    else
      match headMatch rest with
      | some (ws, u, r) => some ([c], ws, u, r)
      | none => (findLabelSplit rest).map fun x => (c :: x.1, x.2)

/-- Attempt to match `\[\^(.+?)\]:\s+(https?://\S+)` at the head of the
list.  On success return `(label, whitespace, group2, rest)` where `rest`
is the text after the whole match. -/
def tryFoot : List Char → Option (List Char × List Char × List Char × List Char)
  | '[' :: '^' :: rest => findLabelSplit rest
  | _ => none

/-- The callback `replace_footnote` of the source: given the resolver
`gT` (modelling `get_title_from_url` as a pure title function),
`date_str`, and the match components, build
`f"[^{label}]: [{title}]({url}) retrieved on {date_str}"` where
`url = match.group(2).strip()` and the resolver receives the stripped URL
and `match.group(0)`. -/
def replace_footnote (gT : List Char → List Char → List Char)
    (date lab ws u0 : List Char) : List Char :=
  let url := pyStrip u0
  let orig := "[^".data ++ lab ++ "]:".data ++ ws ++ u0
  "[^".data ++ lab ++ "]: [".data ++ gT url orig ++ "](".data ++ url ++
    ") retrieved on ".data ++ date

/-- One `re.subn` scan of the footnote pattern with callback replacement:
leftmost, non-overlapping, scanning resuming after each match.  Returns
the rewritten text and the number of matches. -/
def rwScanF (gT : List Char → List Char → List Char) (date : List Char) :
    Nat → List Char → List Char × Nat
  | 0, s => (s, 0)
  | _ + 1, [] => ([], 0)
  | fuel + 1, c :: rest =>
    match tryFoot (c :: rest) with
    | some (lab, ws, u0, r) =>
      let p := rwScanF gT date fuel r
      (replace_footnote gT date lab ws u0 ++ p.1, p.2 + 1)
    | none =>
      let p := rwScanF gT date fuel rest
      (c :: p.1, p.2)

/-- Step 2 of `process_markdown`: the full footnote-rewriting pass,
returning the new text and the number of rewritten definitions. -/
def rewriteFootnotes (gT : List Char → List Char → List Char)
    (date s : List Char) : List Char × Nat :=
  rwScanF gT date s.length s

/-- The text pipeline of `process_markdown`: Step 1 then Step 2 (file I/O
and console reporting elided).  Returns the final text, `comma_count`, and
the number of footnote matches (which the script counts identically in
`footnote_count` and `processed_links`). -/
def process_markdown (gT : List Char → List Char → List Char)
    (date content : List Char) : List Char × Nat × Nat :=
  let r1 := separateMarkers content
  let r2 := rewriteFootnotes gT date r1.1
  (r2.1, r1.2, r2.2)

/-! ### The Resource Title Resolver, `get_title_from_url` -/

/-- String literals of `get_title_from_url`. -/
def pdfCT : List Char := "application/pdf".data

/-- Declared-HTML content-type fragment tested by the script. -/
def htmlCT : List Char := "text/html".data

/-- Fallback title for a PDF whose metadata title is missing or falsy. -/
def untitledPDF : List Char := "Untitled PDF".data

/-- Fallback title for an HTML page with no `<title>` element. -/
def untitledWebpage : List Char := "Untitled Webpage".data

/-- The generic error placeholder returned on any absorbed exception. -/
def errPlaceholder : List Char := "Error retrieving title".data

/-- The placeholder returned for an unknown declared content type. -/
def unknownResource : List Char := "Unknown Resource".data

/-- Lower-case interstitial title tested with `startswith` on line 65. -/
def interstitialStart : List Char := "verifying if your connection".data

/-- Exact lower-case interstitial phrase tested on line 75. -/
def interstitialPhrase : List Char := "verifying if your connection is secure...".data

/-- Substring tested case-insensitively on line 65. -/
def cloudflareStr : List Char := "cloudflare".data

/-- Exception message of the line-66 `raise ValueError`. -/
def botPageMsg : List Char := "Bot protection page detected".data

/-- Exception message of the line-76 `raise ValueError`. -/
def botTitleMsg : List Char := "Detected bot protection title".data

/-- Run state touched by `get_title_from_url`: the global `error_count` and
the appended contents of the error log file (one element per logged
failure; each failure writes its two lines under a single append). -/
structure RState where
  error_count : Nat
  log : List (List Char)
deriving DecidableEq

/-- The two lines written to the error log by the `except` handler:
`Error retrieving title from {url}: {e}` and
`Original footnote: {original_footnote}`. -/
def errEntry (url e orig : List Char) : List Char :=
  "Error retrieving title from ".data ++ url ++ ": ".data ++ e ++ "\n".data ++
    "Original footnote: ".data ++ orig ++ "\n".data

/-- The two lines written to the error log by the unknown-content-type
branch. -/
def unknownEntry (url ct orig : List Char) : List Char :=
  "Unknown content type for URL ".data ++ url ++ ": ".data ++ ct ++ "\n".data ++
    "Original footnote: ".data ++ orig ++ "\n".data

/-- The `except Exception` handler: increment `error_count`, append a log
entry, return the generic placeholder. -/
def errorReturn (url orig e : List Char) (st : RState) : List Char × RState :=
  (errPlaceholder, ⟨st.error_count + 1, st.log ++ [errEntry url e orig]⟩)

/-- Outcome of evaluating a Python expression that may raise: either an
exception with its message, or a value. -/
inductive PyOutcome (α : Type) where
  | raises (e : List Char)
  | value (v : α)
deriving DecidableEq

/-- Result of `PdfReader(BytesIO(response.content)).metadata.title`: the
evaluation may raise (malformed PDF, absent metadata object), or produce
an optional title string. -/
abbrev PdfMetaTitle := PyOutcome (Option (List Char))

/-- Result of `BeautifulSoup(response.text, 'html.parser').find('title')`
with its `.text`: the evaluation may raise, find no `<title>` tag, or
produce the tag's raw text. -/
abbrev HtmlTitleTag := PyOutcome (Option (List Char))

/-- One fetched response as the script consumes it: the declared
`Content-Type` header and the outcomes of the two content parsers on its
payload. -/
structure FetchResponse where
  contentType : List Char
  pdfTitle : PdfMetaTitle
  htmlTitle : HtmlTitleTag
deriving DecidableEq

/-- Outcome of `requests.get` / `scraper.get`: a transport-level exception
(timeout, DNS, connection refused, ...) or a response. -/
inductive FetchResult where
  | raises (e : List Char)
  | ok (resp : FetchResponse)
deriving DecidableEq

/-- Line 60: `reader.metadata.title or 'Untitled PDF'` on a successfully
evaluated optional title (Python `or` takes the fallback on `None` and on
the empty string). -/
def pdfTitleVal : Option (List Char) → List Char
  | none => untitledPDF
  | some t => if t.isEmpty then untitledPDF else t

/-- Line 64: `title_tag.text.strip() if title_tag else 'Untitled Webpage'`. -/
def htmlTitleVal : Option (List Char) → List Char
  | none => untitledWebpage
  | some t => pyStrip t

/-- The line-65 bot-protection heuristic on an extracted HTML title:
`title.lower().startswith("verifying if your connection") or "cloudflare" in title.lower()`. -/
def botHeuristic (title : List Char) : Bool :=
  interstitialStart.isPrefixOf (lowerL title) || isSubstr cloudflareStr (lowerL title)

/-- The line-75 check applied to any title that reaches the end of the
`try` block: `title.strip().lower() == "verifying if your connection is secure..."`
raises, otherwise the title is returned. -/
def titleFinalCheck (title url orig : List Char) (st : RState) : List Char × RState :=
  if lowerL (pyStrip title) = interstitialPhrase then errorReturn url orig botTitleMsg st
  else (title, st)

/-- The Resource Title Resolver `get_title_from_url(url, original_footnote)`
over an abstract transport outcome `fr`: branch on the declared content
type, apply the bot-protection heuristics, absorb every raised exception
into the `except` handler.  Returns the title-or-placeholder string and the
updated run state. -/
def get_title_from_url (fr : FetchResult) (url orig : List Char) (st : RState) :
    List Char × RState :=
  match fr with
  | .raises e => errorReturn url orig e st
  | .ok resp =>
    if isSubstr pdfCT resp.contentType then
      match resp.pdfTitle with
      | .raises e => errorReturn url orig e st
      | .value mt => titleFinalCheck (pdfTitleVal mt) url orig st
    else if isSubstr htmlCT resp.contentType then
      match resp.htmlTitle with
      | .raises e => errorReturn url orig e st
      | .value tt =>
        let title := htmlTitleVal tt
        if botHeuristic title then errorReturn url orig botPageMsg st
        else titleFinalCheck title url orig st
    else
      (unknownResource,
        ⟨st.error_count + 1, st.log ++ [unknownEntry url resp.contentType orig]⟩)

/-- The failure events of one resolver call: the transport raises, a content
parser raises, or a bot-protection heuristic check fires — exactly the
conditions under which control reaches the `except` handler of
`get_title_from_url` (the unknown-content-type branch returns without
raising and is not a raised failure). -/
def failsResolution (fr : FetchResult) : Prop :=
  match fr with
  | .raises _ => True
  | .ok resp =>
    if isSubstr pdfCT resp.contentType = true then
      match resp.pdfTitle with
      | .raises _ => True
      | .value mt => lowerL (pyStrip (pdfTitleVal mt)) = interstitialPhrase
    else if isSubstr htmlCT resp.contentType = true then
      match resp.htmlTitle with
      | .raises _ => True
      | .value tt =>
        botHeuristic (htmlTitleVal tt) = true ∨
          lowerL (pyStrip (htmlTitleVal tt)) = interstitialPhrase
    else False

/-! ### Footnote-marker counting (claim C9) -/

/-- Occurrence count of the marker-opening digraph `[^` in a text, as a
left scan; the flag records whether the previous character was `[`. -/
def countM : Bool → List Char → Nat
  | _, [] => 0
  | b, c :: t => (if b && (c == '^') then 1 else 0) + countM (c == '[') t

/-- State of the `countM` scan after a list: whether its last character
(or, for the empty list, the inherited flag) is `[`. -/
def endSt : Bool → List Char → Bool
  | b, [] => b
  | _, c :: t => endSt (c == '[') t

/-- Number of footnote markers and definition heads in a document: the
occurrences of `[^`. -/
def countMarkers (s : List Char) : Nat := countM false s

/-! ### Claim-specific document families -/

/-- A run of `n` adjacent identical footnote markers `[^a]` (duplicate
labels are legal and occur independently). -/
def markerRun : Nat → List Char
  | 0 => []
  | n + 1 => "[^a]".data ++ markerRun n

/-- The output of one separator pass on `markerRun n`: the markers are
paired left to right, a separator between the members of each pair. -/
def sepRun : Nat → List Char
  | 0 => []
  | 1 => "[^a]".data
  | n + 2 => "[^a]<sup>,</sup>[^a]".data ++ sepRun n

/-- Texts in which no `]` is immediately followed by `[` — in particular
fully separated marker runs.  The separator pattern cannot match inside
such a text. -/
def noAdjBrackets : List Char → Bool
  | ']' :: '[' :: _ => false
  | _ :: t => noAdjBrackets t
  | [] => true

/-! ### Generic list lemmas -/

theorem takeWhile_all {p : Char → Bool} {l : List Char}
    (h : ∀ c ∈ l, p c = true) : l.takeWhile p = l := by
  induction l with
  | nil => rfl
  | cons c t ih =>
    have hc : p c = true := h c (by simp)
    simp [List.takeWhile_cons, hc, ih fun c hc2 => h c (by simp [hc2])]

theorem takeWhile_app {p : Char → Bool} {l r : List Char}
    (h : ∀ c ∈ l, p c = true) : (l ++ r).takeWhile p = l ++ r.takeWhile p := by
  induction l with
  | nil => rfl
  | cons c t ih =>
    have hc : p c = true := h c (by simp)
    simp [List.takeWhile_cons, hc]
    exact ih fun c hc2 => h c (by simp [hc2])

theorem dropWhile_app {p : Char → Bool} {l r : List Char}
    (h : ∀ c ∈ l, p c = true) : (l ++ r).dropWhile p = r.dropWhile p := by
  induction l with
  | nil => rfl
  | cons c t ih =>
    have hc : p c = true := h c (by simp)
    simp [List.dropWhile_cons, hc]
    exact ih fun c hc2 => h c (by simp [hc2])

theorem takeWhile_stop {p : Char → Bool} {r : List Char}
    (h : r = [] ∨ ∃ c t, r = c :: t ∧ p c = false) : r.takeWhile p = [] := by
  rcases h with rfl | ⟨c, t, rfl, hc⟩
  · rfl
  · simp [List.takeWhile_cons, hc]

theorem dropWhile_stop {p : Char → Bool} {r : List Char}
    (h : r = [] ∨ ∃ c t, r = c :: t ∧ p c = false) : r.dropWhile p = r := by
  rcases h with rfl | ⟨c, t, rfl, hc⟩
  · rfl
  · simp [List.dropWhile_cons, hc]

theorem pyStrip_nows {l : List Char} (h : ∀ c ∈ l, isPySpace c = false) :
    pyStrip l = l := by
  unfold pyStrip
  have h1 : l.dropWhile isPySpace = l := by
    cases l with
    | nil => rfl
    | cons c t => simp [List.dropWhile_cons, h c (by simp)]
  rw [h1]
  have h2 : l.reverse.dropWhile isPySpace = l.reverse := by
    cases hr : l.reverse with
    | nil => rfl
    | cons c t =>
      have hc : c ∈ l := by
        have : c ∈ l.reverse := by rw [hr]; simp
        simpa using this
      simp [List.dropWhile_cons, h c hc]
  rw [h2, List.reverse_reverse]

theorem prefixOf_self_app (l r : List Char) : l.isPrefixOf (l ++ r) = true := by
  induction l with
  | nil => simp [List.isPrefixOf]
  | cons c t ih => simp [List.isPrefixOf, ih]

theorem isSubstr_of_prefixOf {p s : List Char} (h : p.isPrefixOf s = true) :
    isSubstr p s = true := by
  cases s with
  | nil =>
    cases p with
    | nil => rfl
    | cons c t => simp [List.isPrefixOf] at h
  | cons c t => simp [isSubstr, h]

theorem isSubstr_cons {p s : List Char} (c : Char) (h : isSubstr p s = true) :
    isSubstr p (c :: s) = true := by
  simp [isSubstr, h]

theorem isSubstr_mid (a p b : List Char) : isSubstr p (a ++ (p ++ b)) = true := by
  induction a with
  | nil => exact isSubstr_of_prefixOf (prefixOf_self_app p b)
  | cons c t ih => exact isSubstr_cons c ih

theorem prefixOf_map {p s : List Char} (f : Char → Char) (h : p.isPrefixOf s = true) :
    (p.map f).isPrefixOf (s.map f) = true := by
  induction p generalizing s with
  | nil => simp [List.isPrefixOf]
  | cons c t ih =>
    cases s with
    | nil => simp [List.isPrefixOf] at h
    | cons d u =>
      simp only [List.isPrefixOf, Bool.and_eq_true, beq_iff_eq] at h
      obtain ⟨rfl, h2⟩ := h
      simp [List.isPrefixOf, ih h2]

theorem isSubstr_map {p s : List Char} (f : Char → Char) (h : isSubstr p s = true) :
    isSubstr (p.map f) (s.map f) = true := by
  induction s with
  | nil =>
    simp [isSubstr] at h ⊢
    simp [h]
  | cons c t ih =>
    simp only [isSubstr, Bool.or_eq_true] at h
    rcases h with h | h
    · exact isSubstr_of_prefixOf (prefixOf_map f h)
    · exact isSubstr_cons _ (ih h)

/-! ### Characterization of the separator-pattern matcher -/

theorem headSep_some {s r : List Char} (h : headSep s = some r) :
    s = ']' :: '[' :: '^' :: r := by
  unfold headSep at h
  split at h
  · simp_all
  · simp_all

theorem headSep_cons_ne {c : Char} {l : List Char} (h : c ≠ ']') :
    headSep (c :: l) = none := by
  unfold headSep
  split
  · simp_all
  · rfl

theorem lazyDotTill_some {s ds r : List Char} (h : lazyDotTill s = some (ds, r)) :
    s = ds ++ ']' :: '[' :: '^' :: r ∧ ds ≠ [] ∧ '\n' ∉ ds := by
  induction s generalizing ds r with
  | nil => simp [lazyDotTill] at h
  | cons c rest ih =>
    by_cases hc : c = '\n'
    · simp [lazyDotTill, hc] at h
    · cases hh : headSep rest with
      | some r2 =>
        simp [lazyDotTill, hc, hh] at h
        obtain ⟨rfl, rfl⟩ := h
        refine ⟨by rw [headSep_some hh]; rfl, by simp, ?_⟩
        intro hmem
        simp at hmem
        exact hc hmem.symm
      | none =>
        cases hl : lazyDotTill rest with
        | none => simp [lazyDotTill, hc, hh, hl] at h
        | some x =>
          obtain ⟨a, b⟩ := x
          simp [lazyDotTill, hc, hh, hl] at h
          obtain ⟨rfl, rfl⟩ := h
          obtain ⟨hs, hne, hnl⟩ := ih hl
          refine ⟨by rw [hs]; rfl, by simp, ?_⟩
          intro hmem
          simp at hmem
          rcases hmem with hmem | hmem
          · exact hc hmem.symm
          · exact hnl hmem

theorem trySep_some {s g1 r : List Char} (h : trySep s = some (g1, r)) :
    ∃ ds, g1 = '[' :: '^' :: (ds ++ [']']) ∧ s = g1 ++ '[' :: '^' :: r ∧
      ds ≠ [] ∧ '\n' ∉ ds := by
  unfold trySep at h
  split at h
  · rename_i rest
    cases hl : lazyDotTill rest with
    | none => rw [hl] at h; simp at h
    | some x =>
      obtain ⟨a, b⟩ := x
      rw [hl] at h
      simp at h
      obtain ⟨rfl, rfl⟩ := h
      obtain ⟨hs, hne, hnl⟩ := lazyDotTill_some hl
      refine ⟨a, rfl, ?_, hne, hnl⟩
      rw [hs]
      simp
  · simp at h

theorem trySep_head_ne {c : Char} {l : List Char} (h : c ≠ '[') :
    trySep (c :: l) = none := by
  unfold trySep
  split
  · simp_all
  · rfl

/-! ### Characterization of the footnote-pattern matcher -/

theorem mem_takeWhile {p : Char → Bool} {l : List Char} {c : Char}
    (h : c ∈ l.takeWhile p) : p c = true := by
  induction l with
  | nil => simp at h
  | cons d t ih =>
    by_cases hd : p d
    · simp [List.takeWhile_cons, hd] at h
      rcases h with rfl | h
      · exact hd
      · exact ih h
    · simp [List.takeWhile_cons, hd] at h

theorem dropWhile_head {p : Char → Bool} {l t : List Char} {c : Char}
    (h : l.dropWhile p = c :: t) : p c = false := by
  induction l with
  | nil => simp at h
  | cons d u ih =>
    by_cases hd : p d
    · rw [List.dropWhile_cons_of_pos hd] at h
      exact ih h
    · rw [List.dropWhile_cons_of_neg hd] at h
      cases h
      simpa using hd

theorem https_data : "https://".data = ['h', 't', 't', 'p', 's', ':', '/', '/'] := rfl

theorem http_data : "http://".data = ['h', 't', 't', 'p', ':', '/', '/'] := rfl

theorem protoSplit_some {s proto body : List Char}
    (h : protoSplit s = some (proto, body)) :
    (proto = "https://".data ∨ proto = "http://".data) ∧ s = proto ++ body := by
  unfold protoSplit at h
  split at h
  · simp only [Option.some_inj, Prod.mk.injEq] at h
    obtain ⟨rfl, rfl⟩ := h
    exact ⟨Or.inl rfl, rfl⟩
  · simp only [Option.some_inj, Prod.mk.injEq] at h
    obtain ⟨rfl, rfl⟩ := h
    exact ⟨Or.inr rfl, rfl⟩
  · simp at h

theorem proto_nows {proto : List Char}
    (h : proto = "https://".data ∨ proto = "http://".data) :
    ∀ c ∈ proto, isPySpace c = false := by
  rcases h with rfl | rfl <;> decide

theorem matchTailB_some {s ws u r : List Char} (h : matchTailB s = some (ws, u, r)) :
    s = ws ++ u ++ r ∧ ws ≠ [] ∧ (∀ c ∈ ws, isPySpace c = true) ∧
      (∀ c ∈ u, isPySpace c = false) ∧ u ≠ [] ∧
      (r = [] ∨ ∃ c t, r = c :: t ∧ isPySpace c = true) := by
  unfold matchTailB at h
  by_cases hws : (s.takeWhile isPySpace).isEmpty = true
  · simp [hws] at h
  · simp only [hws, if_false] at h
    cases hp : protoSplit (s.dropWhile isPySpace) with
    | none => rw [hp] at h; simp at h
    | some pb =>
      obtain ⟨proto, body⟩ := pb
      rw [hp] at h
      simp only [] at h
      by_cases hrun : (body.takeWhile fun c => !(isPySpace c)).isEmpty = true
      · simp [hrun] at h
      · simp only [hrun, if_false, Option.some_inj, Prod.mk.injEq] at h
        obtain ⟨rfl, rfl, rfl⟩ := h
        obtain ⟨hproto, hsplit⟩ := protoSplit_some hp
        refine ⟨?_, by simpa using hws, fun c hc => mem_takeWhile hc, ?_, ?_, ?_⟩
        · conv_lhs => rw [← @List.takeWhile_append_dropWhile _ isPySpace s]
          rw [hsplit]
          conv_lhs =>
            rw [← @List.takeWhile_append_dropWhile _ (fun c => !(isPySpace c)) body]
          simp [List.append_assoc]
        · intro c hc
          rcases List.mem_append.mp hc with hc | hc
          · exact proto_nows hproto c hc
          · simpa using mem_takeWhile hc
        · rcases hproto with rfl | rfl <;> simp
        · cases hr : body.dropWhile (fun c => !(isPySpace c)) with
          | nil => exact Or.inl rfl
          | cons c t =>
            refine Or.inr ⟨c, t, rfl, ?_⟩
            simpa using dropWhile_head hr

theorem headMatch_some {s ws u r : List Char} (h : headMatch s = some (ws, u, r)) :
    ∃ rest2, s = ']' :: ':' :: rest2 ∧ matchTailB rest2 = some (ws, u, r) := by
  unfold headMatch at h
  split at h
  · exact ⟨_, rfl, h⟩
  · simp at h

theorem headMatch_cons_ne {c : Char} {l : List Char} (h : c ≠ ']') :
    headMatch (c :: l) = none := by
  unfold headMatch
  split
  · simp_all
  · rfl

theorem findLabelSplit_some {s lab ws u r : List Char}
    (h : findLabelSplit s = some (lab, ws, u, r)) :
    s = lab ++ ']' :: ':' :: (ws ++ u ++ r) ∧ lab ≠ [] ∧ '\n' ∉ lab ∧
      ws ≠ [] ∧ (∀ c ∈ ws, isPySpace c = true) ∧
      (∀ c ∈ u, isPySpace c = false) ∧ u ≠ [] ∧
      (r = [] ∨ ∃ c t, r = c :: t ∧ isPySpace c = true) := by
  induction s generalizing lab ws u r with
  | nil => simp [findLabelSplit] at h
  | cons c rest ih =>
    by_cases hc : c = '\n'
    · simp [findLabelSplit, hc] at h
    · cases hh : headMatch rest with
      | some x =>
        obtain ⟨ws2, u2, r2⟩ := x
        simp [findLabelSplit, hc, hh] at h
        obtain ⟨rfl, rfl, rfl, rfl⟩ := h
        obtain ⟨rest2, hr2, hm⟩ := headMatch_some hh
        obtain ⟨hs, hwne, hwsall, hunws, hune, hrr⟩ := matchTailB_some hm
        subst hr2
        refine ⟨by rw [hs]; rfl, by simp, ?_, hwne, hwsall, hunws, hune, hrr⟩
        intro hmem
        simp at hmem
        exact hc hmem.symm
      | none =>
        cases hl : findLabelSplit rest with
        | none => simp [findLabelSplit, hc, hh, hl] at h
        | some x =>
          obtain ⟨a, ws2, u2, r2⟩ := x
          simp [findLabelSplit, hc, hh, hl] at h
          obtain ⟨rfl, rfl, rfl, rfl⟩ := h
          obtain ⟨hs, hane, hanl, hwne, hwsall, hunws, hune, hrr⟩ := ih hl
          refine ⟨by rw [hs]; rfl, by simp, ?_, hwne, hwsall, hunws, hune, hrr⟩
          intro hmem
          simp at hmem
          rcases hmem with hmem | hmem
          · exact hc hmem.symm
          · exact hanl hmem

theorem tryFoot_some {s lab ws u r : List Char}
    (h : tryFoot s = some (lab, ws, u, r)) :
    s = '[' :: '^' :: (lab ++ ']' :: ':' :: (ws ++ u ++ r)) ∧ lab ≠ [] ∧
      '\n' ∉ lab ∧ ws ≠ [] ∧ (∀ c ∈ ws, isPySpace c = true) ∧
      (∀ c ∈ u, isPySpace c = false) ∧ u ≠ [] ∧
      (r = [] ∨ ∃ c t, r = c :: t ∧ isPySpace c = true) := by
  unfold tryFoot at h
  split at h
  · obtain ⟨hs, hrest⟩ := findLabelSplit_some h
    exact ⟨by rw [hs], hrest⟩
  · simp at h

theorem tryFoot_head_ne {c : Char} {l : List Char} (h : c ≠ '[') :
    tryFoot (c :: l) = none := by
  unfold tryFoot
  split
  · simp_all
  · rfl

/-! ### The separator pass is the identity on texts without a bracket pair -/

theorem noAdjBrackets_cons {c : Char} {t : List Char}
    (h : noAdjBrackets (c :: t) = true) : noAdjBrackets t = true := by
  unfold noAdjBrackets at h
  split at h
  · simp at h
  · simp_all
  · simp_all

theorem lazyDotTill_none_of_noAdj {s : List Char} (h : noAdjBrackets s = true) :
    lazyDotTill s = none := by
  induction s with
  | nil => rfl
  | cons c rest ih =>
    by_cases hc : c = '\n'
    · simp [lazyDotTill, hc]
    · have hrest : noAdjBrackets rest = true := noAdjBrackets_cons h
      cases hh : headSep rest with
      | some r =>
        rw [headSep_some hh] at hrest
        simp [noAdjBrackets] at hrest
      | none => simp [lazyDotTill, hc, hh, ih hrest]

theorem trySep_none_of_noAdj {s : List Char} (h : noAdjBrackets s = true) :
    trySep s = none := by
  unfold trySep
  split
  · rename_i rest
    rw [lazyDotTill_none_of_noAdj (noAdjBrackets_cons (noAdjBrackets_cons h))]
    rfl
  · rfl

theorem sepScanF_noAdj {s : List Char} (h : noAdjBrackets s = true) (fuel : Nat) :
    sepScanF fuel s = (s, 0) := by
  induction fuel generalizing s with
  | zero => rfl
  | succ fuel ih =>
    cases s with
    | nil => rfl
    | cons c rest =>
      simp [sepScanF, trySep_none_of_noAdj h, ih (noAdjBrackets_cons h)]

/-! ### The separator pass preserves the number of footnote markers -/

theorem countM_append (b : Bool) (xs ys : List Char) :
    countM b (xs ++ ys) = countM b xs + countM (endSt b xs) ys := by
  induction xs generalizing b with
  | nil => simp [countM, endSt]
  | cons c t ih => simp [countM, endSt, ih, Nat.add_assoc]

theorem countM_sepStr (b : Bool) : countM b sepStr = 0 := by
  cases b <;> decide

theorem endSt_sepStr (b : Bool) : endSt b sepStr = false := by
  cases b <;> decide

theorem beq_lbrack_caret : (('[' : Char) == '^') = false := by decide

theorem beq_caret_caret : (('^' : Char) == '^') = true := by decide

theorem beq_caret_lbrack : (('^' : Char) == '[') = false := by decide

theorem beq_lbrack_lbrack : (('[' : Char) == '[') = true := by decide

theorem countM_marker_cons (b : Bool) (t : List Char) :
    countM b ('[' :: '^' :: t) = 1 + countM false t := by
  simp [countM, beq_lbrack_caret, beq_caret_caret, beq_caret_lbrack, beq_lbrack_lbrack]

theorem sepScanF_countM (fuel : Nat) : ∀ (b : Bool) (s : List Char),
    countM b (sepScanF fuel s).1 = countM b s := by
  induction fuel with
  | zero => intro b s; rfl
  | succ fuel ih =>
    intro b s
    cases s with
    | nil => rfl
    | cons c rest =>
      cases ht : trySep (c :: rest) with
      | none => simp [sepScanF, ht, countM, ih]
      | some x =>
        obtain ⟨g1, r⟩ := x
        obtain ⟨ds, hg1, hs, hne, hnl⟩ := trySep_some ht
        simp only [sepScanF, ht]
        rw [hs, List.append_assoc, countM_append, countM_append, countM_append,
          countM_sepStr, endSt_sepStr, countM_marker_cons, countM_marker_cons, ih]
        omega

/-! ### The footnote pass preserves the number of footnote markers -/

theorem isPySpace_not_special {c : Char} (h : isPySpace c = true) :
    (c == '^') = false ∧ (c == '[') = false := by
  unfold isPySpace at h
  simp only [Bool.or_eq_true, beq_iff_eq] at h
  rcases h with ((((rfl | rfl) | rfl) | rfl) | rfl) | rfl <;> exact ⟨by decide, by decide⟩

theorem countM_ws {l : List Char} (h : ∀ c ∈ l, isPySpace c = true) (b : Bool) :
    countM b l = 0 := by
  induction l generalizing b with
  | nil => rfl
  | cons c t ih =>
    have hc := isPySpace_not_special (h c (by simp))
    simp [countM, hc.1, ih fun c hc2 => h c (by simp [hc2])]

theorem endSt_ws {l : List Char} (h : ∀ c ∈ l, isPySpace c = true) (hne : l ≠ [])
    (b : Bool) : endSt b l = false := by
  induction l generalizing b with
  | nil => exact absurd rfl hne
  | cons c t ih =>
    have hc := isPySpace_not_special (h c (by simp))
    cases t with
    | nil => simp [endSt, hc.2]
    | cons d u =>
      show endSt (c == '[') (d :: u) = false
      exact ih (fun c hc2 => h c (by simp [hc2])) (by simp) _

theorem countM_head_irrel {r : List Char}
    (hr : r = [] ∨ ∃ c t, r = c :: t ∧ isPySpace c = true) (b1 b2 : Bool) :
    countM b1 r = countM b2 r := by
  rcases hr with rfl | ⟨c, t, rfl, hc⟩
  · rfl
  · simp [countM, (isPySpace_not_special hc).1]

theorem countM_lbc (b : Bool) : countM b ['[', '^'] = 1 := by cases b <;> decide

theorem endSt_lbc (b : Bool) : endSt b ['[', '^'] = false := by cases b <;> decide

theorem countM_seg2 (b : Bool) : countM b [']', ':', ' ', '['] = 0 := by
  cases b <;> decide

theorem endSt_seg2 (b : Bool) : endSt b [']', ':', ' ', '['] = true := by
  cases b <;> decide

theorem countM_sp_lb (b : Bool) : countM b [' ', '['] = 0 := by cases b <;> decide

theorem endSt_sp_lb (b : Bool) : endSt b [' ', '['] = true := by cases b <;> decide

theorem countM_seg3 (b : Bool) : countM b [']', '('] = 0 := by cases b <;> decide

theorem endSt_seg3 (b : Bool) : endSt b [']', '('] = false := by cases b <;> decide

theorem countM_seg4 (b : Bool) :
    countM b [')', ' ', 'r', 'e', 't', 'r', 'i', 'e', 'v', 'e', 'd', ' ', 'o', 'n', ' '] = 0 := by
  cases b <;> decide

theorem endSt_seg4 (b : Bool) :
    endSt b [')', ' ', 'r', 'e', 't', 'r', 'i', 'e', 'v', 'e', 'd', ' ', 'o', 'n', ' '] = false := by
  cases b <;> decide

theorem countM_rb_colon (e : Bool) (Y : List Char) :
    countM e (']' :: ':' :: Y) = countM false Y := by
  cases e <;> simp [countM]

theorem rwScanF_no_lbrack (gT : List Char → List Char → List Char) (d : List Char)
    (fuel : Nat) : ∀ (l : List Char), '[' ∉ l → rwScanF gT d fuel l = (l, 0) := by
  induction fuel with
  | zero => intro l _; rfl
  | succ fuel ih =>
    intro l hl
    cases l with
    | nil => rfl
    | cons c rest =>
      have hc : c ≠ '[' := fun h => hl (by simp [h])
      simp [rwScanF, tryFoot_head_ne hc, ih rest fun h => hl (by simp [h])]

theorem rwScanF_countM (gT : List Char → List Char → List Char) (d : List Char)
    (hT : ∀ u o, countM true (gT u o) = 0) (hD : countM false d = 0) (fuel : Nat) :
    ∀ (b : Bool) (s : List Char), countM b (rwScanF gT d fuel s).1 = countM b s := by
  induction fuel with
  | zero => intro b s; rfl
  | succ fuel ih =>
    intro b s
    cases s with
    | nil => rfl
    | cons c rest =>
      cases ht : tryFoot (c :: rest) with
      | none => simp [rwScanF, ht, countM, ih]
      | some x =>
        obtain ⟨lab, ws, u0, r⟩ := x
        obtain ⟨hs, hlabne, hlabnl, hwsne, hwsall, hu0nws, hu0ne, hr⟩ := tryFoot_some ht
        have hws0 : ∀ b, countM b ws = 0 := countM_ws hwsall
        have hwsE : ∀ b, endSt b ws = false := endSt_ws hwsall hwsne
        have hurl : pyStrip u0 = u0 := pyStrip_nows hu0nws
        simp only [rwScanF, ht]
        rw [hs]
        unfold replace_footnote
        rw [hurl]
        rw [countM_marker_cons]
        simp only [List.append_assoc, countM_append, countM_lbc, endSt_lbc,
          countM_seg2, endSt_seg2, countM_sp_lb, endSt_sp_lb, countM_seg3, endSt_seg3,
          countM_seg4, endSt_seg4, countM_rb_colon, hws0, hwsE, hT, hD, ih]
        rw [countM_head_irrel hr (endSt false d) (endSt false u0)]
        omega

/-! ### Building a match from its components -/

theorem takeWhile_head_false {p : Char → Bool} {c : Char} {t : List Char}
    (h : p c = false) : (c :: t).takeWhile p = [] := by
  simp [List.takeWhile_cons, h]

theorem dropWhile_head_false {p : Char → Bool} {c : Char} {t : List Char}
    (h : p c = false) : (c :: t).dropWhile p = c :: t := by
  simp [List.dropWhile_cons, h]

theorem protoSplit_https (Y : List Char) :
    protoSplit (['h', 't', 't', 'p', 's', ':', '/', '/'] ++ Y)
      = some (['h', 't', 't', 'p', 's', ':', '/', '/'], Y) := rfl

theorem protoSplit_http (Y : List Char) :
    protoSplit (['h', 't', 't', 'p', ':', '/', '/'] ++ Y)
      = some (['h', 't', 't', 'p', ':', '/', '/'], Y) := rfl

theorem matchTailB_build {ws run r proto : List Char}
    (hws : ws ≠ []) (hwsall : ∀ c ∈ ws, isPySpace c = true)
    (hp : proto = "https://".data ∨ proto = "http://".data)
    (hrun : run ≠ []) (hrunall : ∀ c ∈ run, isPySpace c = false)
    (hr : r = [] ∨ ∃ c t, r = c :: t ∧ isPySpace c = true) :
    matchTailB (ws ++ (proto ++ (run ++ r))) = some (ws, proto ++ run, r) := by
  have hXhead : ∀ Y : List Char, (proto ++ Y).takeWhile isPySpace = [] := by
    intro Y
    rcases hp with rfl | rfl <;> exact takeWhile_head_false (by decide)
  have hXdrop : ∀ Y : List Char, (proto ++ Y).dropWhile isPySpace = proto ++ Y := by
    intro Y
    rcases hp with rfl | rfl <;> exact dropWhile_head_false (by decide)
  have hrunall2 : ∀ c ∈ run, (fun c => !(isPySpace c)) c = true := by
    intro c hc
    simp [hrunall c hc]
  have hrstop : r = [] ∨ ∃ c t, r = c :: t ∧ (fun c => !(isPySpace c)) c = false := by
    rcases hr with rfl | ⟨c, t, rfl, hc⟩
    · exact Or.inl rfl
    · exact Or.inr ⟨c, t, rfl, by simp [hc]⟩
  have htw : (ws ++ (proto ++ (run ++ r))).takeWhile isPySpace = ws := by
    rw [takeWhile_app hwsall, hXhead, List.append_nil]
  have hdw : (ws ++ (proto ++ (run ++ r))).dropWhile isPySpace = proto ++ (run ++ r) := by
    rw [dropWhile_app hwsall, hXdrop]
  have hwsE : ws.isEmpty = false := by
    cases ws with
    | nil => exact absurd rfl hws
    | cons c t => rfl
  have hrunE : run.isEmpty = false := by
    cases run with
    | nil => exact absurd rfl hrun
    | cons c t => rfl
  unfold matchTailB
  rw [htw, hdw]
  simp only [hwsE, Bool.false_eq_true, if_false]
  rcases hp with rfl | rfl
  · simp only [protoSplit_https, takeWhile_app hrunall2, takeWhile_stop hrstop,
      List.append_nil, dropWhile_app hrunall2, dropWhile_stop hrstop, hrunE,
      Bool.false_eq_true, if_false]
  · simp only [protoSplit_http, takeWhile_app hrunall2, takeWhile_stop hrstop,
      List.append_nil, dropWhile_app hrunall2, dropWhile_stop hrstop, hrunE,
      Bool.false_eq_true, if_false]

theorem findLabelSplit_build {lab rest2 ws u r : List Char}
    (hlab : lab ≠ []) (hnl : '\n' ∉ lab) (hrb : ']' ∉ lab)
    (hm : matchTailB rest2 = some (ws, u, r)) :
    findLabelSplit (lab ++ ']' :: ':' :: rest2) = some (lab, ws, u, r) := by
  induction lab with
  | nil => exact absurd rfl hlab
  | cons c lab2 ih =>
    have hc : c ≠ '\n' := fun h => hnl (by simp [h])
    cases lab2 with
    | nil =>
      show findLabelSplit (c :: ']' :: ':' :: rest2) = some ([c], ws, u, r)
      simp [findLabelSplit, hc, headMatch, hm]
    | cons c2 lab3 =>
      have hc2 : c2 ≠ ']' := fun h => hrb (by simp [h])
      have hrec := ih (by simp) (fun h => hnl (by simp [h])) (fun h => hrb (by simp [h]))
      show findLabelSplit (c :: ((c2 :: lab3) ++ ']' :: ':' :: rest2)) = _
      rw [findLabelSplit]
      simp only [hc, if_false]
      rw [List.cons_append] at hrec ⊢
      rw [headMatch_cons_ne hc2, hrec]
      rfl

theorem tryFoot_build {lab rest2 ws u r : List Char}
    (hlab : lab ≠ []) (hnl : '\n' ∉ lab) (hrb : ']' ∉ lab)
    (hm : matchTailB rest2 = some (ws, u, r)) :
    tryFoot ('[' :: '^' :: (lab ++ ']' :: ':' :: rest2)) = some (lab, ws, u, r) := by
  show findLabelSplit (lab ++ ']' :: ':' :: rest2) = some (lab, ws, u, r)
  exact findLabelSplit_build hlab hnl hrb hm

/-! ### Single-step unfoldings of the two scans -/

theorem sepScanF_cons_some {c : Char} {rest g1 r : List Char} (fuel : Nat)
    (h : trySep (c :: rest) = some (g1, r)) :
    sepScanF (fuel + 1) (c :: rest)
      = (g1 ++ sepStr ++ '[' :: '^' :: (sepScanF fuel r).1, (sepScanF fuel r).2 + 1) := by
  simp [sepScanF, h]

theorem sepScanF_cons_none {c : Char} {rest : List Char} (fuel : Nat)
    (h : trySep (c :: rest) = none) :
    sepScanF (fuel + 1) (c :: rest)
      = (c :: (sepScanF fuel rest).1, (sepScanF fuel rest).2) := by
  simp [sepScanF, h]

theorem rwScanF_cons_some (gT : List Char → List Char → List Char)
    {date : List Char} {c : Char} {rest lab ws u0 r : List Char} (fuel : Nat)
    (h : tryFoot (c :: rest) = some (lab, ws, u0, r)) :
    rwScanF gT date (fuel + 1) (c :: rest)
      = (replace_footnote gT date lab ws u0 ++ (rwScanF gT date fuel r).1,
         (rwScanF gT date fuel r).2 + 1) := by
  simp [rwScanF, h]

/-! ### The separator pass on a run of adjacent markers -/

theorem trySep_run (Y : List Char) :
    trySep ('[' :: '^' :: 'a' :: ']' :: '[' :: '^' :: Y)
      = some (['[', '^', 'a', ']'], Y) := rfl

theorem trySep_a (Y : List Char) : trySep ('a' :: Y) = none := rfl

theorem trySep_rb (Y : List Char) : trySep (']' :: Y) = none := rfl

theorem twoStepInd (P : Nat → Prop) (h0 : P 0) (h1 : P 1)
    (hstep : ∀ n, P n → P (n + 2)) : ∀ n, P n := by
  have key : ∀ n, P n ∧ P (n + 1) := by
    intro n
    induction n with
    | zero => exact ⟨h0, h1⟩
    | succ k ih => exact ⟨ih.2, hstep k ih.1⟩
  exact fun n => (key n).1

theorem markerRun_length (n : Nat) : (markerRun n).length = 4 * n := by
  induction n with
  | zero => rfl
  | succ k ih => simp [markerRun, ih]; omega

theorem markerRun_two (n : Nat) :
    markerRun (n + 2) = '[' :: '^' :: 'a' :: ']' :: '[' :: '^' :: 'a' :: ']' :: markerRun n := rfl

theorem sepScanF_markerRun :
    ∀ n, ∀ fuel, 4 * n ≤ fuel → sepScanF fuel (markerRun n) = (sepRun n, n / 2) := by
  refine twoStepInd _ ?_ ?_ ?_
  · intro fuel _
    cases fuel <;> rfl
  · intro fuel hf
    rw [sepScanF_noAdj (by decide) fuel]
    rfl
  · intro n ih fuel hf
    obtain ⟨k, rfl⟩ : ∃ k, fuel = k + 8 := ⟨fuel - 8, by omega⟩
    have h1 : sepScanF (k + 5) (markerRun n) = (sepRun n, n / 2) := ih (k + 5) (by omega)
    rw [markerRun_two]
    rw [show k + 8 = (k + 7) + 1 from rfl, sepScanF_cons_some (k + 7) (trySep_run _)]
    rw [show k + 7 = (k + 6) + 1 from rfl, sepScanF_cons_none (k + 6) (trySep_a _)]
    rw [show k + 6 = (k + 5) + 1 from rfl, sepScanF_cons_none (k + 5) (trySep_rb _)]
    rw [h1]
    refine Prod.ext ?_ ?_
    · rfl
    · show n / 2 + 1 = (n + 2) / 2
      omega

/-! ### Log entries contain the URL and the original footnote -/

theorem isSubstr_app_left {p t : List Char} (a : List Char)
    (h : isSubstr p t = true) : isSubstr p (a ++ t) = true := by
  induction a with
  | nil => exact h
  | cons c u ih => exact isSubstr_cons c ih

theorem errEntry_contains_orig (url e orig : List Char) :
    isSubstr orig (errEntry url e orig) = true := by
  have h : errEntry url e orig
      = ("Error retrieving title from ".data ++ url ++ ": ".data ++ e ++ "\n".data
          ++ "Original footnote: ".data) ++ (orig ++ "\n".data) := by
    simp [errEntry, List.append_assoc]
  rw [h]
  exact isSubstr_mid _ _ _

theorem unknownEntry_contains_orig (url ct orig : List Char) :
    isSubstr orig (unknownEntry url ct orig) = true := by
  have h : unknownEntry url ct orig
      = ("Unknown content type for URL ".data ++ url ++ ": ".data ++ ct ++ "\n".data
          ++ "Original footnote: ".data) ++ (orig ++ "\n".data) := by
    simp [unknownEntry, List.append_assoc]
  rw [h]
  exact isSubstr_mid _ _ _

theorem unknownEntry_contains_url (url ct orig : List Char) :
    isSubstr url (unknownEntry url ct orig) = true := by
  have h : unknownEntry url ct orig
      = "Unknown content type for URL ".data
          ++ (url ++ (": ".data ++ ct ++ "\n".data ++ "Original footnote: ".data
                ++ orig ++ "\n".data)) := by
    simp [unknownEntry, List.append_assoc]
  rw [h]
  exact isSubstr_mid _ _ _

/-! ### Claims about the Marker Separator (C2, C3, C10) -/

/-- C2 counterexample: on the run `[^a][^a][^a]` of three adjacent markers,
one application of the Marker Separator performs exactly 1 substitution,
not N − 1 = 2 as the claim asserts. -/
theorem C2_counterexample :
    (separateMarkers "[^a][^a][^a]".data).2 = 1 ∧ (1 : Nat) ≠ 3 - 1 := by
  decide

/-- C2 amended: one application of the Marker Separator on a run of N ≥ 2
adjacent identical markers inserts ⌊N/2⌋ separators — the non-overlapping
matches pair the markers left to right ((1,2), (3,4), ...), because each
match also consumes the opening `[^` of its second marker — and the
markers-separated counter is set to that number of substitutions. -/
theorem C2_floor_half_separators (n : Nat) (hn : 2 ≤ n) :
    separateMarkers (markerRun n) = (sepRun n, n / 2) := by
  unfold separateMarkers
  rw [markerRun_length]
  exact sepScanF_markerRun n (4 * n) le_rfl

/-- C2 witness: the amended claim at the concrete run of three markers. -/
theorem C2_witness :
    2 ≤ 3 ∧ separateMarkers (markerRun 3) = (sepRun 3, 3 / 2) :=
  ⟨by decide, C2_floor_half_separators 3 (by decide)⟩

/-- C3 counterexample: the Marker Separator is not idempotent.  On
`[^a][^a][^a]` the first pass separates only the first pair, and a second
application performs a further substitution, so separator(separator(t)) ≠
separator(t). -/
theorem C3_counterexample :
    (separateMarkers ((separateMarkers "[^a][^a][^a]".data).1)).1
      ≠ (separateMarkers "[^a][^a][^a]".data).1 := by
  decide

/-- C3 amended: the separator pass is a no-op (identity text, zero
substitutions) on every text in which no `]` is immediately followed by
`[` — in particular on fully separated text, where every marker pair is
already interleaved with `<sup>,</sup>`.  It is not idempotent on its own
single-pass output in general, since one pass may leave a run's interior
pairs (2,3), (4,5), ... unseparated. -/
theorem C3_noop_on_separated (s : List Char) (h : noAdjBrackets s = true) :
    separateMarkers s = (s, 0) := by
  unfold separateMarkers
  exact sepScanF_noAdj h _

/-- C3 witness: re-running the pass on the fully separated two-marker text
is a no-op. -/
theorem C3_witness :
    noAdjBrackets "[^a]<sup>,</sup>[^a]".data = true ∧
      separateMarkers "[^a]<sup>,</sup>[^a]".data
        = ("[^a]<sup>,</sup>[^a]".data, 0) :=
  ⟨by decide, C3_noop_on_separated _ (by decide)⟩

/-- C10: the separator substitution fires across non-marker text.  In
`[^1] a[i][^2]` the lazy group spans from the first `[^` to the first `]`
that is immediately followed by `[^`, so the separator is inserted between
`a[i]` and `[^2]` even though the left side is not a footnote marker. -/
theorem C10_nonmarker_separation :
    separateMarkers "[^1] a[i][^2]".data
      = ("[^1] a[i]<sup>,</sup>[^2]".data, 1) := by
  decide

/-! ### Claims about the Footnote Rewriter (C4, C1) -/

theorem rwScanF_nil (gT : List Char → List Char → List Char) (date : List Char)
    (fuel : Nat) : rwScanF gT date fuel [] = ([], 0) := by
  cases fuel <;> rfl

/-- C4: a document that is exactly one resolvable footnote definition
`[^label]: <url>` (bare HTTP/HTTPS URL body, nothing after it) is replaced
by exactly `[^label]: [<title>](<url>) retrieved on <date>`, where
`<title>` is what the resolver returns for the URL and the matched
definition text, and the match counter is 1. -/
theorem C4_resolvable_rewritten (gT : List Char → List Char → List Char)
    (date lab proto run : List Char)
    (hlab : lab ≠ []) (hnl : '\n' ∉ lab) (hrb : ']' ∉ lab)
    (hp : proto = "https://".data ∨ proto = "http://".data)
    (hrun : run ≠ []) (hrunall : ∀ c ∈ run, isPySpace c = false) :
    rewriteFootnotes gT date ("[^".data ++ lab ++ "]: ".data ++ (proto ++ run))
      = ("[^".data ++ lab ++ "]: [".data
          ++ gT (proto ++ run) ("[^".data ++ lab ++ "]: ".data ++ (proto ++ run))
          ++ "](".data ++ (proto ++ run) ++ ") retrieved on ".data ++ date, 1) := by
  have hm : matchTailB ([' '] ++ (proto ++ run)) = some ([' '], proto ++ run, []) := by
    have h := @matchTailB_build [' '] run [] proto
      (by simp) (by decide) hp hrun hrunall (Or.inl rfl)
    rwa [List.append_nil] at h
  have htf := tryFoot_build hlab hnl hrb hm
  have hdoc : "[^".data ++ lab ++ "]: ".data ++ (proto ++ run)
      = '[' :: '^' :: (lab ++ ']' :: ':' :: ([' '] ++ (proto ++ run))) := by
    simp [List.append_assoc]
  unfold rewriteFootnotes
  rw [hdoc, List.length_cons, List.length_cons,
    rwScanF_cons_some gT _ htf, rwScanF_nil]
  have hps : pyStrip (proto ++ run) = proto ++ run := by
    apply pyStrip_nows
    intro c hc
    rcases List.mem_append.mp hc with h | h
    · exact proto_nows hp c h
    · exact hrunall c h
  unfold replace_footnote
  rw [hps]
  simp [List.append_assoc]

/-- C4 witness: the spec's own example with a stub resolver returning `T`
and date `D`. -/
theorem C4_witness :
    rewriteFootnotes (fun _ _ => "T".data) "D".data
        ("[^".data ++ "x".data ++ "]: ".data
          ++ ("https://".data ++ "example.com/a".data))
      = ("[^".data ++ "x".data ++ "]: [".data
          ++ (fun _ _ => "T".data) ("https://".data ++ "example.com/a".data)
              ("[^".data ++ "x".data ++ "]: ".data
                ++ ("https://".data ++ "example.com/a".data))
          ++ "](".data ++ ("https://".data ++ "example.com/a".data)
          ++ ") retrieved on ".data ++ "D".data, 1) :=
  C4_resolvable_rewritten (fun _ _ => "T".data) "D".data "x".data
    "https://".data "example.com/a".data (by decide) (by decide) (by decide)
    (Or.inl rfl) (by decide) (by decide)

/-- C1 counterexample: the definition `[^y]: https://example.com plus extra
text` is not left byte-for-byte unchanged — the pattern `https?://\S+`
matches the URL prefix of the body, so the rewriter fires on it. -/
theorem C1_counterexample :
    (rewriteFootnotes (fun _ _ => "T".data) "2025-01-01".data
        "[^y]: https://example.com plus extra text".data).1
      ≠ "[^y]: https://example.com plus extra text".data := by
  decide

/-- C1 amended: definitions with pre-existing link syntax are left
unchanged, but a definition whose body is a bare URL followed by extra
prose on the same line is not: the `[^label]: <url>` head is rewritten to
the link form — the resolver seeing only the URL-head match as the
original footnote — and the extra prose survives after the inserted
date. -/
theorem C1_prose_rewritten (gT : List Char → List Char → List Char)
    (date lab proto run prose : List Char)
    (hlab : lab ≠ []) (hnl : '\n' ∉ lab) (hrb : ']' ∉ lab)
    (hp : proto = "https://".data ∨ proto = "http://".data)
    (hrun : run ≠ []) (hrunall : ∀ c ∈ run, isPySpace c = false)
    (hprose : '[' ∉ prose) :
    rewriteFootnotes gT date
        ("[^".data ++ lab ++ "]: ".data ++ (proto ++ run) ++ " ".data ++ prose)
      = ("[^".data ++ lab ++ "]: [".data
          ++ gT (proto ++ run) ("[^".data ++ lab ++ "]: ".data ++ (proto ++ run))
          ++ "](".data ++ (proto ++ run) ++ ") retrieved on ".data ++ date
          ++ " ".data ++ prose, 1) := by
  have hm : matchTailB ([' '] ++ (proto ++ (run ++ ' ' :: prose)))
      = some ([' '], proto ++ run, ' ' :: prose) :=
    @matchTailB_build [' '] run (' ' :: prose) proto
      (by simp) (by decide) hp hrun hrunall (Or.inr ⟨' ', prose, rfl, by decide⟩)
  have htf := tryFoot_build hlab hnl hrb hm
  have hdoc : "[^".data ++ lab ++ "]: ".data ++ (proto ++ run) ++ " ".data ++ prose
      = '[' :: '^' :: (lab ++ ']' :: ':' :: ([' '] ++ (proto ++ (run ++ ' ' :: prose)))) := by
    simp [List.append_assoc]
  have hnp : '[' ∉ (' ' :: prose) := by
    intro h
    rcases List.mem_cons.mp h with h | h
    · exact absurd h (by decide)
    · exact hprose h
  unfold rewriteFootnotes
  rw [hdoc, List.length_cons, List.length_cons,
    rwScanF_cons_some gT _ htf, rwScanF_no_lbrack gT date _ _ hnp]
  have hps : pyStrip (proto ++ run) = proto ++ run := by
    apply pyStrip_nows
    intro c hc
    rcases List.mem_append.mp hc with h | h
    · exact proto_nows hp c h
    · exact hrunall c h
  unfold replace_footnote
  rw [hps]
  simp [List.append_assoc]

/-- C1 witness: the spec's own example, rewritten with the prose kept. -/
theorem C1_witness :
    rewriteFootnotes (fun _ _ => "T".data) "2025-01-01".data
        ("[^".data ++ "y".data ++ "]: ".data
          ++ ("https://".data ++ "example.com".data) ++ " ".data
          ++ "plus extra text".data)
      = ("[^".data ++ "y".data ++ "]: [".data
          ++ (fun _ _ => "T".data) ("https://".data ++ "example.com".data)
              ("[^".data ++ "y".data ++ "]: ".data
                ++ ("https://".data ++ "example.com".data))
          ++ "](".data ++ ("https://".data ++ "example.com".data)
          ++ ") retrieved on ".data ++ "2025-01-01".data
          ++ " ".data ++ "plus extra text".data, 1) :=
  C1_prose_rewritten (fun _ _ => "T".data) "2025-01-01".data "y".data
    "https://".data "example.com".data "plus extra text".data
    (by decide) (by decide) (by decide) (Or.inl rfl) (by decide) (by decide)
    (by decide)

/-! ### Claims about the Resource Title Resolver (C5, C6, C7, C8) -/

theorem errEntry_contains_url (url e orig : List Char) :
    isSubstr url (errEntry url e orig) = true := by
  have h : errEntry url e orig
      = "Error retrieving title from ".data
          ++ (url ++ (": ".data ++ e ++ "\n".data ++ "Original footnote: ".data
                ++ orig ++ "\n".data)) := by
    simp [errEntry, List.append_assoc]
  rw [h]
  exact isSubstr_mid _ _ _

/-- Unfolding of `get_title_from_url` on a non-raising fetch. -/
theorem get_title_ok (resp : FetchResponse) (url orig : List Char) (st : RState) :
    get_title_from_url (.ok resp) url orig st
      = (if isSubstr pdfCT resp.contentType = true then
          match resp.pdfTitle with
          | .raises e => errorReturn url orig e st
          | .value mt => titleFinalCheck (pdfTitleVal mt) url orig st
        else if isSubstr htmlCT resp.contentType = true then
          match resp.htmlTitle with
          | .raises e => errorReturn url orig e st
          | .value tt =>
            if botHeuristic (htmlTitleVal tt) = true then errorReturn url orig botPageMsg st
            else titleFinalCheck (htmlTitleVal tt) url orig st
        else
          (unknownResource,
            ⟨st.error_count + 1, st.log ++ [unknownEntry url resp.contentType orig]⟩)) := rfl

/-- Unfolding of `failsResolution` on a non-raising fetch. -/
theorem failsResolution_ok (resp : FetchResponse) :
    failsResolution (.ok resp)
      = if isSubstr pdfCT resp.contentType = true then
          match resp.pdfTitle with
          | .raises _ => True
          | .value mt => lowerL (pyStrip (pdfTitleVal mt)) = interstitialPhrase
        else if isSubstr htmlCT resp.contentType = true then
          match resp.htmlTitle with
          | .raises _ => True
          | .value tt =>
            botHeuristic (htmlTitleVal tt) = true ∨
              lowerL (pyStrip (htmlTitleVal tt)) = interstitialPhrase
        else False := rfl

/-- C5: every failure raised during resolution — a transport exception, a
parse failure in either content branch, or a bot-protection heuristic
check firing — is absorbed by `get_title_from_url`: it returns exactly the
string `Error retrieving title`, increments the error counter by exactly
one, and appends exactly one log entry, which carries the URL, the
exception reason, and the original footnote text. -/
theorem C5_failures_absorbed (fr : FetchResult) (url orig : List Char)
    (st : RState) (h : failsResolution fr) :
    ∃ e, get_title_from_url fr url orig st
        = (errPlaceholder,
           ⟨st.error_count + 1, st.log ++ [errEntry url e orig]⟩) ∧
      isSubstr url (errEntry url e orig) = true ∧
      isSubstr orig (errEntry url e orig) = true := by
  cases fr with
  | raises e =>
    exact ⟨e, rfl, errEntry_contains_url url e orig, errEntry_contains_orig url e orig⟩
  | ok resp =>
    rw [failsResolution_ok] at h
    rw [get_title_ok]
    by_cases hpdf : isSubstr pdfCT resp.contentType = true
    · rw [if_pos hpdf] at h ⊢
      cases hmt : resp.pdfTitle with
      | raises e =>
        exact ⟨e, rfl, errEntry_contains_url url e orig, errEntry_contains_orig url e orig⟩
      | value mt =>
        rw [hmt] at h
        have h2 : lowerL (pyStrip (pdfTitleVal mt)) = interstitialPhrase := h
        refine ⟨botTitleMsg, ?_, errEntry_contains_url url botTitleMsg orig,
          errEntry_contains_orig url botTitleMsg orig⟩
        show titleFinalCheck (pdfTitleVal mt) url orig st = _
        unfold titleFinalCheck
        rw [if_pos h2]
        rfl
    · rw [if_neg hpdf] at h ⊢
      by_cases hhtml : isSubstr htmlCT resp.contentType = true
      · rw [if_pos hhtml] at h ⊢
        cases htt : resp.htmlTitle with
        | raises e =>
          exact ⟨e, rfl, errEntry_contains_url url e orig, errEntry_contains_orig url e orig⟩
        | value tt =>
          rw [htt] at h
          have h2 : botHeuristic (htmlTitleVal tt) = true ∨
              lowerL (pyStrip (htmlTitleVal tt)) = interstitialPhrase := h
          rcases h2 with hb | hb
          · refine ⟨botPageMsg, ?_, errEntry_contains_url url botPageMsg orig,
              errEntry_contains_orig url botPageMsg orig⟩
            show (if botHeuristic (htmlTitleVal tt) = true
                then errorReturn url orig botPageMsg st
                else titleFinalCheck (htmlTitleVal tt) url orig st) = _
            rw [if_pos hb]
            rfl
          · by_cases hb2 : botHeuristic (htmlTitleVal tt) = true
            · refine ⟨botPageMsg, ?_, errEntry_contains_url url botPageMsg orig,
                errEntry_contains_orig url botPageMsg orig⟩
              show (if botHeuristic (htmlTitleVal tt) = true
                  then errorReturn url orig botPageMsg st
                  else titleFinalCheck (htmlTitleVal tt) url orig st) = _
              rw [if_pos hb2]
              rfl
            · refine ⟨botTitleMsg, ?_, errEntry_contains_url url botTitleMsg orig,
                errEntry_contains_orig url botTitleMsg orig⟩
              show (if botHeuristic (htmlTitleVal tt) = true
                  then errorReturn url orig botPageMsg st
                  else titleFinalCheck (htmlTitleVal tt) url orig st) = _
              rw [if_neg hb2]
              unfold titleFinalCheck
              rw [if_pos hb]
              rfl
      · rw [if_neg hhtml] at h
        exact h.elim

/-- C5 witness: a transport timeout at a concrete URL. -/
theorem C5_witness :
    ∃ e, get_title_from_url (.raises "Read timed out".data) "http://a.com".data
        "[^1]: http://a.com".data ⟨0, []⟩
        = (errPlaceholder,
           ⟨0 + 1, [] ++ [errEntry "http://a.com".data e "[^1]: http://a.com".data]⟩) ∧
      isSubstr "http://a.com".data
          (errEntry "http://a.com".data e "[^1]: http://a.com".data) = true ∧
      isSubstr "[^1]: http://a.com".data
          (errEntry "http://a.com".data e "[^1]: http://a.com".data) = true :=
  C5_failures_absorbed (.raises "Read timed out".data) "http://a.com".data
    "[^1]: http://a.com".data ⟨0, []⟩ trivial

/-- C6 counterexample: a malformed PDF payload (the PDF parser raises) is
not handled by the `Untitled PDF` fallback — it reaches the generic
`except` handler, which returns the error placeholder and increments the
error counter, contrary to the claim. -/
theorem C6_counterexample :
    (get_title_from_url
        (.ok ⟨"application/pdf".data, .raises "EOF marker not found".data, .value none⟩)
        "http://a.com/f.pdf".data "[^1]: http://a.com/f.pdf".data ⟨0, []⟩).1
      = errPlaceholder ∧
    (get_title_from_url
        (.ok ⟨"application/pdf".data, .raises "EOF marker not found".data, .value none⟩)
        "http://a.com/f.pdf".data "[^1]: http://a.com/f.pdf".data ⟨0, []⟩).2.error_count
      = 1 ∧
    errPlaceholder ≠ untitledPDF := by
  refine ⟨rfl, rfl, by decide⟩

/-- C6 amended: for a response whose declared content type is PDF, a PDF
with no metadata title is not an error — the resolver falls back to
`Untitled PDF` with the run state unchanged (no counter increment, no log
entry) — but a malformed PDF payload, where the parser raises, is an
error: the counter is incremented, one entry is logged, and the generic
error placeholder is returned. -/
theorem C6_pdf_split (resp : FetchResponse) (url orig : List Char) (st : RState)
    (hct : isSubstr pdfCT resp.contentType = true) :
    (resp.pdfTitle = .value none →
      get_title_from_url (.ok resp) url orig st = (untitledPDF, st)) ∧
    (∀ e, resp.pdfTitle = .raises e →
      get_title_from_url (.ok resp) url orig st
        = (errPlaceholder, ⟨st.error_count + 1, st.log ++ [errEntry url e orig]⟩)) := by
  constructor
  · intro hmt
    rw [get_title_ok, if_pos hct, hmt]
    show titleFinalCheck (pdfTitleVal none) url orig st = (untitledPDF, st)
    unfold titleFinalCheck
    rw [if_neg (by decide)]
    rfl
  · intro e hmt
    rw [get_title_ok, if_pos hct, hmt]
    rfl

/-- C6 witness: the amended claim's no-metadata half at a concrete stub
response. -/
theorem C6_witness :
    get_title_from_url
        (.ok ⟨"application/pdf".data, .value none, .value none⟩)
        "http://a.com/f.pdf".data "[^1]: http://a.com/f.pdf".data ⟨0, []⟩
      = (untitledPDF, ⟨0, []⟩) :=
  (C6_pdf_split ⟨"application/pdf".data, .value none, .value none⟩
    "http://a.com/f.pdf".data "[^1]: http://a.com/f.pdf".data ⟨0, []⟩
    (by decide)).1 rfl

/-- C7: an HTML response whose extracted and stripped title equals the
interstitial phrase case-insensitively, or contains the substring
`cloudflare`, is treated as a failure: the resolver returns the generic
error placeholder, increments the error counter by one, and appends
exactly one log entry containing the original footnote text. -/
theorem C7_bot_interstitial (resp : FetchResponse) (url orig raw : List Char)
    (st : RState)
    (hpdf : isSubstr pdfCT resp.contentType = false)
    (hhtml : isSubstr htmlCT resp.contentType = true)
    (htag : resp.htmlTitle = .value (some raw))
    (hbad : lowerL (pyStrip raw) = interstitialPhrase ∨
            isSubstr cloudflareStr (pyStrip raw) = true) :
    get_title_from_url (.ok resp) url orig st
      = (errPlaceholder,
         ⟨st.error_count + 1, st.log ++ [errEntry url botPageMsg orig]⟩) ∧
    isSubstr orig (errEntry url botPageMsg orig) = true := by
  refine ⟨?_, errEntry_contains_orig url botPageMsg orig⟩
  have hbh : botHeuristic (htmlTitleVal (some raw)) = true := by
    show botHeuristic (pyStrip raw) = true
    unfold botHeuristic
    rw [Bool.or_eq_true]
    rcases hbad with hb | hb
    · refine Or.inl ?_
      rw [hb]
      decide
    · refine Or.inr ?_
      have hmap := isSubstr_map Char.toLower hb
      have hcf : cloudflareStr.map Char.toLower = cloudflareStr := by decide
      rw [hcf] at hmap
      exact hmap
  rw [get_title_ok, if_neg (by simp [hpdf]), if_pos hhtml, htag]
  show (if botHeuristic (htmlTitleVal (some raw)) = true
      then errorReturn url orig botPageMsg st
      else titleFinalCheck (htmlTitleVal (some raw)) url orig st) = _
  rw [if_pos hbh]
  rfl

/-- C7 witness: a stub transport serving the Cloudflare interstitial
page. -/
theorem C7_witness :
    get_title_from_url
        (.ok ⟨"text/html".data, .value none,
              .value (some "Verifying if your connection is secure...".data)⟩)
        "http://a.com".data "[^2]: http://a.com".data ⟨0, []⟩
      = (errPlaceholder,
         ⟨0 + 1, [] ++ [errEntry "http://a.com".data botPageMsg "[^2]: http://a.com".data]⟩) ∧
    isSubstr "[^2]: http://a.com".data
        (errEntry "http://a.com".data botPageMsg "[^2]: http://a.com".data) = true :=
  C7_bot_interstitial
    ⟨"text/html".data, .value none,
      .value (some "Verifying if your connection is secure...".data)⟩
    "http://a.com".data "[^2]: http://a.com".data
    "Verifying if your connection is secure...".data ⟨0, []⟩
    (by decide) (by decide) rfl (Or.inl (by decide))

/-- C8: a response whose declared content type is neither PDF nor HTML is
treated as an unknown resource: the resolver appends one log entry
containing the URL and the original footnote text, increments the error
counter by one, and returns the placeholder `Unknown Resource`, which is
distinct from the generic error placeholder. -/
theorem C8_unknown_content_type (resp : FetchResponse) (url orig : List Char)
    (st : RState)
    (hpdf : isSubstr pdfCT resp.contentType = false)
    (hhtml : isSubstr htmlCT resp.contentType = false) :
    get_title_from_url (.ok resp) url orig st
      = (unknownResource,
         ⟨st.error_count + 1, st.log ++ [unknownEntry url resp.contentType orig]⟩) ∧
    isSubstr url (unknownEntry url resp.contentType orig) = true ∧
    isSubstr orig (unknownEntry url resp.contentType orig) = true ∧
    unknownResource ≠ errPlaceholder := by
  refine ⟨?_, unknownEntry_contains_url url resp.contentType orig,
    unknownEntry_contains_orig url resp.contentType orig, by decide⟩
  rw [get_title_ok, if_neg (by simp [hpdf]), if_neg (by simp [hhtml])]

/-- C8 witness: a stub transport returning an image content type. -/
theorem C8_witness :
    get_title_from_url (.ok ⟨"image/png".data, .value none, .value none⟩)
        "http://a.com/i.png".data "[^3]: http://a.com/i.png".data ⟨0, []⟩
      = (unknownResource,
         ⟨0 + 1, [] ++ [unknownEntry "http://a.com/i.png".data "image/png".data
                          "[^3]: http://a.com/i.png".data]⟩) ∧
    isSubstr "http://a.com/i.png".data
        (unknownEntry "http://a.com/i.png".data "image/png".data
          "[^3]: http://a.com/i.png".data) = true ∧
    isSubstr "[^3]: http://a.com/i.png".data
        (unknownEntry "http://a.com/i.png".data "image/png".data
          "[^3]: http://a.com/i.png".data) = true ∧
    unknownResource ≠ errPlaceholder :=
  C8_unknown_content_type ⟨"image/png".data, .value none, .value none⟩
    "http://a.com/i.png".data "[^3]: http://a.com/i.png".data ⟨0, []⟩
    (by decide) (by decide)

/-! ### Claim C9: the passes never change the number of footnote markers -/

/-- C9: for every input document, running the Marker Separator pass and
then the Footnote Rewriter pass — the text pipeline of `process_markdown`
— leaves the total number of footnote markers (occurrences of `[^`)
unchanged, provided every title the resolver returns is free of
footnote-marker syntax (`countM true title = 0`: no `[^` inside the title
and no leading `^` that could fuse with the bracket the rewriter places
before it) and the date string is likewise marker-free. -/
theorem C9_marker_count_invariant (gT : List Char → List Char → List Char)
    (date s : List Char)
    (hT : ∀ u o, countM true (gT u o) = 0) (hD : countM false date = 0) :
    countMarkers (process_markdown gT date s).1 = countMarkers s := by
  unfold process_markdown countMarkers rewriteFootnotes separateMarkers
  rw [rwScanF_countM gT date hT hD _ false _, sepScanF_countM _ false s]

/-- C9 witness: a document with three markers and one resolvable
definition, a stub resolver, and a concrete date. -/
theorem C9_witness :
    countMarkers (process_markdown (fun _ _ => "Example Title".data)
        "2025-01-01".data "[^1][^2] text\n[^1]: https://a.com".data).1
      = countMarkers "[^1][^2] text\n[^1]: https://a.com".data :=
  C9_marker_count_invariant (fun _ _ => "Example Title".data) "2025-01-01".data
    "[^1][^2] text\n[^1]: https://a.com".data
    (fun _ _ => (by decide : countM true "Example Title".data = 0)) (by decide)
